import Mathlib

/-!
Verification of the update-ingestion and orchestration core of the jab3 bot
(crate `bot`, file `src/bot/src/bot/mod.rs`), via a shallow embedding of its
sequencer, main loop, module dispatch and persistence envelope.

Update ids are `i64` in the source (`api::basic_types::UpdateId`); they are
modelled as `Int` (no overflow occurs in the modelled arithmetic: the only
operations are comparison and subtraction of 1, and `id - 1` only ever
executes on the source side where it cannot overflow for ids occurring in
practice; the embedding uses exact integers).  Byte strings (`Vec<u8>`) are
modelled as `List Nat` of byte values.
-/

namespace Jab3

/-! ## Sequencer: `Bot::check_is_old_update`

Source (src/bot/src/bot/mod.rs, lines 132-146):

```
fn check_is_old_update(&mut self, id: UpdateId) -> bool {
    if self.last_update_id >= id {
        true
    } else if self.last_update_id != 0 && self.last_update_id < id - 1 {
        error!("some updates skipped! ...");
        self.last_update_id = id;
        false
    } else {
        self.last_update_id = id;
        false
    }
}
```

The embedding returns `(isOld, newMark, gapLogged)`: whether the update is
reported old, the new value of `last_update_id`, and whether the
`error!("some updates skipped! ...")` branch fired. -/

def checkIsOldUpdate (lastUpdateId : Int) (id : Int) : Bool × Int × Bool :=
  if lastUpdateId ≥ id then
    (true, lastUpdateId, false)
  else if lastUpdateId ≠ 0 ∧ lastUpdateId < id - 1 then
    (false, id, true)
  else
    (false, id, false)

/-- Run the sequencer over a list of incoming ids, returning the final mark. -/
def runSequencer (mark : Int) : List Int → Int
  | [] => mark
  | i :: rest => runSequencer (checkIsOldUpdate mark i).2.1 rest

/-- The successive marks observed while processing a list of ids
(including the initial one). -/
def sequencerTrace (mark : Int) : List Int → List Int
  | [] => [mark]
  | i :: rest => mark :: sequencerTrace (checkIsOldUpdate mark i).2.1 rest

/-- Model of `Iterator::max` on a non-empty list `x :: xs` of ids
(`updates.into_iter().map(|u| u.id).max().unwrap()`). -/
def listMax1 (x : Int) (xs : List Int) : Int := xs.foldl max x

/-- In every branch, the new mark is exactly `max lastUpdateId id`. -/
theorem checkIsOldUpdate_mark (m i : Int) :
    (checkIsOldUpdate m i).2.1 = max m i := by
  unfold checkIsOldUpdate
  split
  · simp only [max_eq_left (by omega : i ≤ m)]
  · split <;> simp only [max_eq_right (by omega : m ≤ i)]

theorem checkIsOldUpdate_isOld (m i : Int) :
    (checkIsOldUpdate m i).1 = decide (m ≥ i) := by
  unfold checkIsOldUpdate
  split
  · simp [*]
  · split <;> simp <;> omega

theorem runSequencer_eq_foldl_max (m : Int) (ids : List Int) :
    runSequencer m ids = ids.foldl max m := by
  induction ids generalizing m with
  | nil => rfl
  | cons i rest ih =>
      simp only [runSequencer, List.foldl, checkIsOldUpdate_mark, ih]

theorem foldl_max_le_foldl_max {a b : Int} (ids : List Int) (h : a ≤ b) :
    ids.foldl max a ≤ ids.foldl max b := by
  induction ids generalizing a b with
  | nil => exact h
  | cons i rest ih => exact ih (by omega)

theorem le_foldl_max (a : Int) (ids : List Int) : a ≤ ids.foldl max a := by
  induction ids generalizing a with
  | nil => exact le_refl a
  | cons i rest ih => exact le_trans (le_max_left a i) (ih (max a i))

theorem sequencerTrace_head (m : Int) (ids : List Int) :
    (sequencerTrace m ids).head? = some m := by
  cases ids <;> rfl

/-- Consecutive entries of the sequencer trace are non-decreasing. -/
theorem sequencerTrace_chain (m : Int) (ids : List Int) :
    (sequencerTrace m ids).Chain' (· ≤ ·) := by
  induction ids generalizing m with
  | nil => simp [sequencerTrace]
  | cons i rest ih =>
      simp only [sequencerTrace]
      refine List.Chain'.cons' (ih _) ?_
      intro y hy
      rw [sequencerTrace_head, Option.mem_def, Option.some.injEq] at hy
      subst hy
      rw [checkIsOldUpdate_mark]
      exact le_max_left m i

theorem foldl_max_of_nonneg (x : Int) (xs : List Int) (hx : 0 ≤ x) :
    (x :: xs).foldl max 0 = listMax1 x xs := by
  simp only [List.foldl, listMax1]
  rw [max_eq_right hx]

/-- C2 counterexample: feeding the single id `-1` to the sequencer starting
from mark `0` leaves the mark at `0`, which is not the maximum id seen
(`-1`): the claim "after processing the whole sequence the mark equals
the maximum id seen so far" fails for non-positive ids. -/
theorem runSequencer_max_counterexample :
    runSequencer 0 [(-1 : Int)] = 0 ∧ listMax1 (-1) [] = -1 ∧
      runSequencer 0 [(-1 : Int)] ≠ listMax1 (-1) [] := by
  refine ⟨by decide, by decide, by decide⟩

/-- C2 (amended): for every sequence of ids fed to the sequencer starting
from mark `0`, the observed mark is non-decreasing after each id processed,
and — provided the first id is non-negative (true of all real update ids) —
the final mark equals the maximum id seen. -/
theorem sequencer_mark_monotone_and_max (x : Int) (xs : List Int)
    (hx : 0 ≤ x) :
    (sequencerTrace 0 (x :: xs)).Chain' (· ≤ ·) ∧
      runSequencer 0 (x :: xs) = listMax1 x xs := by
  refine ⟨sequencerTrace_chain 0 (x :: xs), ?_⟩
  rw [runSequencer_eq_foldl_max]
  exact foldl_max_of_nonneg x xs hx

/-- C2 witness: the amended theorem applied to the concrete sequence
`[3, 1, 7]`. -/
theorem sequencer_mark_monotone_and_max_witness :
    (sequencerTrace 0 [3, 1, 7]).Chain' (· ≤ ·) ∧
      runSequencer 0 [(3 : Int), 1, 7] = listMax1 3 [1, 7] :=
  sequencer_mark_monotone_and_max 3 [1, 7] (by decide)

/-- C3: if the mark is non-zero and the incoming id is at most the mark,
`check_is_old_update` reports the update old, the mark is unchanged, and no
gap error is logged (the discard is silent). -/
theorem old_update_discarded_silently (m i : Int) (hm : m ≠ 0) (hi : i ≤ m) :
    checkIsOldUpdate m i = (true, m, false) := by
  unfold checkIsOldUpdate
  rw [if_pos (by omega)]

/-- C3 witness: mark `5`, incoming id `3`. -/
theorem old_update_discarded_silently_witness :
    checkIsOldUpdate 5 3 = (true, 5, false) :=
  old_update_discarded_silently 5 3 (by decide) (by decide)

/-- C9: with mark `0` ("no update processed yet"), any update whose id is
`≤ 0` is still reported old and discarded with the mark unchanged. -/
theorem zero_mark_discards_nonpositive (i : Int) (hi : i ≤ 0) :
    checkIsOldUpdate 0 i = (true, 0, false) := by
  unfold checkIsOldUpdate
  rw [if_pos (by omega)]

/-- C9 witness: mark `0`, incoming id `0` (and the branch is the discard
branch even though no update `0` was ever processed). -/
theorem zero_mark_discards_nonpositive_witness :
    checkIsOldUpdate 0 0 = (true, 0, false) :=
  zero_mark_discards_nonpositive 0 (by decide)

/-! ## Main loop: batch handling in `Bot::start`

Source (src/bot/src/bot/mod.rs, lines 211-247): per fetched batch,

```
if updates.is_empty() { continue; }
if self.last_update_id == 0 && self.skip_missed_updates {
    self.last_update_id = updates.into_iter().map(|u| u.id).max().unwrap();
    continue;
}
for update in updates {
    if self.check_is_old_update(update.id) { continue; }
    ... dispatch ...
}
```

The embedding records the state the loop mutates: the mark, the
`skip_missed_updates` flag, how many gap errors were logged, and the ids of
the updates that reached dispatch, in order. -/

structure LoopState where
  lastUpdateId : Int
  skipMissedUpdates : Bool
  gapErrors : Nat
  dispatched : List Int
deriving Repr, DecidableEq

/-- One iteration of the `for update in updates` body for the id `i`. -/
def processUpdate (s : LoopState) (i : Int) : LoopState :=
  let r := checkIsOldUpdate s.lastUpdateId i
  if r.1 then
    { s with lastUpdateId := r.2.1 }
  else
    { s with
        lastUpdateId := r.2.1,
        gapErrors := s.gapErrors + (if r.2.2 then 1 else 0),
        dispatched := s.dispatched ++ [i] }

/-- One iteration of the outer loop for one fetched batch of update ids. -/
def processBatch (s : LoopState) (batch : List Int) : LoopState :=
  match batch with
  | [] => s
  | x :: xs =>
      if s.lastUpdateId = 0 ∧ s.skipMissedUpdates = true then
        { s with lastUpdateId := listMax1 x xs }
      else
        (x :: xs).foldl processUpdate s

/-- Successive batches fetched by the loop. -/
def processBatches (s : LoopState) (batches : List (List Int)) : LoopState :=
  batches.foldl processBatch s

/-- C4: with a non-zero mark and an id past `mark + 1`, the sequencer logs a
gap error and still advances the mark to the id, accepting the update; and
in the scenario mark `10`, batch `[11, 15]`, both updates are dispatched in
order, exactly one gap error is logged, and the mark ends at `15`. -/
theorem gap_advances_mark_and_logs (m i : Int) (hm : m ≠ 0)
    (hi : m + 1 < i) :
    checkIsOldUpdate m i = (false, i, true) ∧
      processBatch ⟨10, false, 0, []⟩ [11, 15] = ⟨15, false, 1, [11, 15]⟩ := by
  constructor
  · unfold checkIsOldUpdate
    rw [if_neg (by omega), if_pos ⟨hm, by omega⟩]
  · decide

/-- C4 witness: the gap step applied at mark `10`, id `15`. -/
theorem gap_advances_mark_and_logs_witness :
    checkIsOldUpdate 10 15 = (false, 15, true) ∧
      processBatch ⟨10, false, 0, []⟩ [11, 15] = ⟨15, false, 1, [11, 15]⟩ :=
  gap_advances_mark_and_logs 10 15 (by decide) (by decide)

/-- C5 counterexample: with mark `0` and the skip flag set, a first batch
whose maximum id is `0` leaves the mark at `0`, so the *second* batch is
also swallowed by the fast-forward branch: batches `[[0], [10]]` end with
no dispatch at all, contradicting "updates in subsequent batches are
dispatched normally" (which would have dispatched `10`). -/
theorem coldstart_skip_counterexample :
    processBatches ⟨0, true, 0, []⟩ [[0], [10]] = ⟨10, true, 0, []⟩ ∧
      (processBatches ⟨0, true, 0, []⟩ [[0], [10]]).dispatched ≠ [10] := by
  constructor <;> decide

/-- C5 (amended): with mark `0` and the skip flag set, the first non-empty
batch only fast-forwards the mark to its maximum id and dispatches nothing;
provided that maximum is non-zero (true of all real update ids), every
subsequent batch is processed by the normal per-update path, and in the
scenario first batch `[5, 6, 9]`, second batch `[10]`: the mark becomes `9`
with zero dispatches, then `10` is dispatched exactly once and the mark
becomes `10`. -/
theorem coldstart_skip_first_batch (x : Int) (xs : List Int) (s : LoopState)
    (h0 : s.lastUpdateId = 0) (hskip : s.skipMissedUpdates = true)
    (hmax : listMax1 x xs ≠ 0) :
    processBatch s (x :: xs) = { s with lastUpdateId := listMax1 x xs } ∧
      (processBatch s (x :: xs)).dispatched = s.dispatched ∧
      (∀ y ys, processBatch (processBatch s (x :: xs)) (y :: ys) =
        (y :: ys).foldl processUpdate (processBatch s (x :: xs))) ∧
      processBatch ⟨0, true, 0, []⟩ [5, 6, 9] = ⟨9, true, 0, []⟩ ∧
      processBatches ⟨0, true, 0, []⟩ [[5, 6, 9], [10]] =
        ⟨10, true, 0, [10]⟩ := by
  have hfirst : processBatch s (x :: xs) =
      { s with lastUpdateId := listMax1 x xs } := by
    simp only [processBatch]
    rw [if_pos ⟨h0, hskip⟩]
  refine ⟨hfirst, by rw [hfirst], ?_, by decide, by decide⟩
  intro y ys
  rw [hfirst]
  simp only [processBatch]
  split
  · rename_i hcond
    exact absurd hcond.1 hmax
  · rfl

/-- C5 witness: the amended theorem applied to the scenario itself
(first batch `[5, 6, 9]` from the initial state, second batch `[10]`). -/
theorem coldstart_skip_first_batch_witness :
    processBatch ⟨0, true, 0, []⟩ [5, 6, 9] =
        { (⟨0, true, 0, []⟩ : LoopState) with lastUpdateId := listMax1 5 [6, 9] } ∧
      (processBatch ⟨0, true, 0, []⟩ [5, 6, 9]).dispatched =
        (⟨0, true, 0, []⟩ : LoopState).dispatched ∧
      (∀ y ys, processBatch (processBatch ⟨0, true, 0, []⟩ [5, 6, 9]) (y :: ys) =
        (y :: ys).foldl processUpdate (processBatch ⟨0, true, 0, []⟩ [5, 6, 9])) ∧
      processBatch ⟨0, true, 0, []⟩ [5, 6, 9] = ⟨9, true, 0, []⟩ ∧
      processBatches ⟨0, true, 0, []⟩ [[5, 6, 9], [10]] =
        ⟨10, true, 0, [10]⟩ :=
  coldstart_skip_first_batch 5 [6, 9] ⟨0, true, 0, []⟩ (by decide) (by decide)
    (by decide)

/-! ## Module dispatch: `Bot::handle_message_update`

Source (src/bot/src/bot/mod.rs, lines 122-127):

```
try_join_all(
    self.modules
        .values_mut()
        .map(|m| m.try_execute_command(&self.communicator, &cmd, &message)),
)
.await?;
```

`try_join_all` polls the module futures in order and resolves to the first
error, dropping the futures that have not completed; the `?` then propagates
that error out of `handle_message_update` (it is logged by the caller in
`Bot::start` as a bare error report, without any module name).  Each
module's `try_execute_command` is modelled as an atomic step with a known
outcome; the dispatcher returns the names of the modules whose step
actually ran, in order, together with the combined result. -/

def dispatchToModules :
    List (String × Except String Unit) → List String × Except String Unit
  | [] => ([], Except.ok ())
  | (name, Except.ok _) :: rest =>
      let r := dispatchToModules rest
      (name :: r.1, r.2)
  | (name, Except.error e) :: _ => ([name], Except.error e)

/-- C1 counterexample: with two registered modules where the first one's
`execute_command` fails, the second module is never invoked and the error
propagates out of the dispatch instead of being caught: failure is not
isolated. -/
theorem dispatch_failure_not_isolated :
    dispatchToModules [("a", Except.error "api outage"), ("b", Except.ok ())]
        = (["a"], Except.error "api outage") ∧
      "b" ∉ (dispatchToModules
        [("a", Except.error "api outage"), ("b", Except.ok ())]).1 ∧
      (dispatchToModules
        [("a", Except.error "api outage"), ("b", Except.ok ())]).2 ≠
        Except.ok () := by
  refine ⟨rfl, by decide, by simp [dispatchToModules]⟩

/-- C1 (amended): `try_join_all` short-circuits: when every module before
some failing module succeeds, dispatch runs exactly the modules up to and
including the failing one (modules after it are not invoked) and returns
the failing module's error, which `handle_message_update` propagates to its
caller rather than catching and logging it per module. -/
theorem dispatch_short_circuits (pre : List (String × Except String Unit))
    (name : String) (e : String) (post : List (String × Except String Unit))
    (hpre : ∀ p ∈ pre, p.2 = Except.ok ()) :
    dispatchToModules (pre ++ (name, Except.error e) :: post)
      = (pre.map Prod.fst ++ [name], Except.error e) := by
  induction pre with
  | nil => rfl
  | cons p ps ih =>
      obtain ⟨n, r⟩ := p
      have hr : r = Except.ok () := hpre (n, r) (by simp)
      subst hr
      have hps : ∀ q ∈ ps, q.2 = Except.ok () := fun q hq =>
        hpre q (List.mem_cons_of_mem _ hq)
      simp [dispatchToModules, ih hps]

/-- C1 witness: three modules where the middle one fails: only the first
two are invoked and the error comes back to the caller. -/
theorem dispatch_short_circuits_witness :
    dispatchToModules
        [("a", Except.ok ()), ("b", Except.error "boom"), ("c", Except.ok ())]
      = (["a", "b"], Except.error "boom") :=
  dispatch_short_circuits [("a", Except.ok ())] "b" "boom"
    [("c", Except.ok ())] (by intro p hp; fin_cases hp; rfl)

/-! ## Persistence envelope: the bincode standard-config codec

`impl Persistence for Bot` (src/bot/src/bot/mod.rs, lines 271-314) encodes

```
#[derive(Encode, Decode)]
struct PersistenceData {
    modules: HashMap<String, Vec<u8>>,
    last_update_id: UpdateId,
}
```

with `bincode::config::standard()` (bincode 2, little-endian, variable-width
integers).  In that format an unsigned 64-bit value below 251 is one byte;
otherwise a marker byte 251/252/253 is followed by the value as a
little-endian u16/u32/u64.  Signed integers are zigzag-transformed first.
A `Vec<u8>` or `String` is its length followed by its raw bytes, and a
`HashMap` is its length followed by its key/value pairs.  Bytes are
modelled as `Nat` values (< 256 wherever the encoder produces them);
strings are modelled by their UTF-8 byte lists. -/

def encodeU64 (n : Nat) : List Nat :=
  if n < 251 then [n]
  else if n < 2 ^ 16 then
    [251, n % 256, n / 256 % 256]
  else if n < 2 ^ 32 then
    [252, n % 256, n / 256 % 256, n / 2 ^ 16 % 256, n / 2 ^ 24 % 256]
  else
    [253, n % 256, n / 256 % 256, n / 2 ^ 16 % 256, n / 2 ^ 24 % 256,
      n / 2 ^ 32 % 256, n / 2 ^ 40 % 256, n / 2 ^ 48 % 256, n / 2 ^ 56 % 256]

def decodeU64 : List Nat → Option (Nat × List Nat)
  | [] => none
  | b :: rest =>
    if b < 251 then some (b, rest)
    else if b = 251 then
      match rest with
      | b0 :: b1 :: r => some (b0 + 256 * b1, r)
      | _ => none
    else if b = 252 then
      match rest with
      | b0 :: b1 :: b2 :: b3 :: r =>
          some (b0 + 256 * b1 + 2 ^ 16 * b2 + 2 ^ 24 * b3, r)
      | _ => none
    else if b = 253 then
      match rest with
      | b0 :: b1 :: b2 :: b3 :: b4 :: b5 :: b6 :: b7 :: r =>
          some (b0 + 256 * b1 + 2 ^ 16 * b2 + 2 ^ 24 * b3 + 2 ^ 32 * b4
            + 2 ^ 40 * b5 + 2 ^ 48 * b6 + 2 ^ 56 * b7, r)
      | _ => none
    else none

/-- bincode's zigzag transform for `i64`: `(x << 1) ^ (x >> 63)`. -/
def zigzag (x : Int) : Nat :=
  if 0 ≤ x then 2 * x.toNat else 2 * (-x).toNat - 1

def unzigzag (n : Nat) : Int :=
  if n % 2 = 0 then ((n / 2 : Nat) : Int) else -(((n + 1) / 2 : Nat) : Int)

def encodeI64 (x : Int) : List Nat := encodeU64 (zigzag x)

def decodeI64 (l : List Nat) : Option (Int × List Nat) :=
  match decodeU64 l with
  | some (n, r) => some (unzigzag n, r)
  | none => none

/-- Encoding of `Vec<u8>` or `String` (as its UTF-8 bytes): length prefix, then bytes. -/
def encodeBytes (bs : List Nat) : List Nat := encodeU64 bs.length ++ bs

def decodeBytes (l : List Nat) : Option (List Nat × List Nat) :=
  match decodeU64 l with
  | some (n, rest) =>
      if n ≤ rest.length then some (rest.take n, rest.drop n) else none
  | none => none

theorem decodeU64_encodeU64 (n : Nat) (h : n < 2 ^ 64) (r : List Nat) :
    decodeU64 (encodeU64 n ++ r) = some (n, r) := by
  unfold encodeU64
  split
  · rename_i h1
    simp [decodeU64, h1]
  · rename_i h1
    split
    · rename_i h2
      simp only [List.cons_append, List.nil_append, decodeU64]
      norm_num
      omega
    · rename_i h2
      split
      · rename_i h3
        simp only [List.cons_append, List.nil_append, decodeU64]
        norm_num
        omega
      · rename_i h3
        simp only [List.cons_append, List.nil_append, decodeU64]
        norm_num
        omega

theorem unzigzag_zigzag (x : Int) : unzigzag (zigzag x) = x := by
  unfold zigzag unzigzag
  split <;> split <;> omega

theorem zigzag_lt (x : Int) (h1 : -(2 ^ 63) ≤ x) (h2 : x < 2 ^ 63) :
    zigzag x < 2 ^ 64 := by
  unfold zigzag
  split <;> omega

theorem decodeI64_encodeI64 (x : Int) (h1 : -(2 ^ 63) ≤ x)
    (h2 : x < 2 ^ 63) (r : List Nat) :
    decodeI64 (encodeI64 x ++ r) = some (x, r) := by
  unfold encodeI64 decodeI64
  rw [decodeU64_encodeU64 (zigzag x) (zigzag_lt x h1 h2) r]
  simp [unzigzag_zigzag]

theorem take_len_append {α : Type} (l r : List α) :
    (l ++ r).take l.length = l := by
  induction l with
  | nil => rfl
  | cons a l ih => simp [List.take, ih]

theorem drop_len_append {α : Type} (l r : List α) :
    (l ++ r).drop l.length = r := by
  induction l with
  | nil => rfl
  | cons a l ih => simp [List.drop, ih]

theorem decodeBytes_encodeBytes (bs : List Nat) (h : bs.length < 2 ^ 64)
    (r : List Nat) :
    decodeBytes (encodeBytes bs ++ r) = some (bs, r) := by
  unfold encodeBytes decodeBytes
  rw [List.append_assoc, decodeU64_encodeU64 bs.length h (bs ++ r)]
  simp [take_len_append, drop_len_append]

/-- The `PersistenceData` struct: the name→bytes mapping produced from the
module `HashMap` (modelled as an association list in iteration order, names
as their UTF-8 bytes) and the high-water mark. -/
structure PersistenceData where
  modules : List (List Nat × List Nat)
  lastUpdateId : Int
deriving Repr, DecidableEq

/-- The `HashMap<String, Vec<u8>>` entries: each key then its value. -/
def encodePairs : List (List Nat × List Nat) → List Nat
  | [] => []
  | p :: ps => encodeBytes p.1 ++ encodeBytes p.2 ++ encodePairs ps

def decodePairs :
    Nat → List Nat → Option (List (List Nat × List Nat) × List Nat)
  | 0, l => some ([], l)
  | n + 1, l =>
    match decodeBytes l with
    | none => none
    | some (k, l1) =>
      match decodeBytes l1 with
      | none => none
      | some (v, l2) =>
        match decodePairs n l2 with
        | none => none
        | some (ps, l3) => some ((k, v) :: ps, l3)

/-- Model of `bincode::encode_to_vec(data, standard())`: map length, entries, mark. -/
def encodePersistenceData (d : PersistenceData) : List Nat :=
  encodeU64 d.modules.length ++ encodePairs d.modules ++
    encodeI64 d.lastUpdateId

/-- Model of `bincode::decode_from_slice::<PersistenceData, _>` (the unconsumed
remainder of the input is returned and ignored by the caller, as in the
source). -/
def decodePersistenceData (l : List Nat) :
    Option (PersistenceData × List Nat) :=
  match decodeU64 l with
  | none => none
  | some (n, l1) =>
    match decodePairs n l1 with
    | none => none
    | some (ps, l2) =>
      match decodeI64 l2 with
      | none => none
      | some (x, l3) => some (⟨ps, x⟩, l3)

theorem decodePairs_encodePairs (ps : List (List Nat × List Nat))
    (h : ∀ p ∈ ps, p.1.length < 2 ^ 64 ∧ p.2.length < 2 ^ 64)
    (r : List Nat) :
    decodePairs ps.length (encodePairs ps ++ r) = some (ps, r) := by
  induction ps with
  | nil => rfl
  | cons p ps ih =>
      have h1 := (h p (List.mem_cons_self p ps)).1
      have h2 := (h p (List.mem_cons_self p ps)).2
      have hps : ∀ q ∈ ps, q.1.length < 2 ^ 64 ∧ q.2.length < 2 ^ 64 :=
        fun q hq => h q (List.mem_cons_of_mem p hq)
      simp only [List.length_cons, encodePairs, decodePairs,
        List.append_assoc]
      rw [decodeBytes_encodeBytes p.1 h1]
      simp only []
      rw [decodeBytes_encodeBytes p.2 h2]
      simp only []
      rw [ih hps]

theorem decode_encode_persistenceData (d : PersistenceData)
    (hn : d.modules.length < 2 ^ 64)
    (hp : ∀ p ∈ d.modules, p.1.length < 2 ^ 64 ∧ p.2.length < 2 ^ 64)
    (h1 : -(2 ^ 63) ≤ d.lastUpdateId) (h2 : d.lastUpdateId < 2 ^ 63) :
    decodePersistenceData (encodePersistenceData d) = some (d, []) := by
  unfold encodePersistenceData decodePersistenceData
  rw [List.append_assoc, decodeU64_encodeU64 d.modules.length hn]
  simp only []
  rw [show encodePairs d.modules ++ encodeI64 d.lastUpdateId =
        encodePairs d.modules ++ encodeI64 d.lastUpdateId ++ [] by simp,
      List.append_assoc, decodePairs_encodePairs d.modules hp]
  simp only []
  rw [show encodeI64 d.lastUpdateId ++ [] =
        encodeI64 d.lastUpdateId ++ ([] : List Nat) by rfl,
      decodeI64_encodeI64 d.lastUpdateId h1 h2]

/-! ## `impl Persistence for Bot`

A module behind `Box<dyn PersistentModule<Input = Vec<u8>, Output = Vec<u8>>>`
is modelled by its state type `α` together with the two methods of the
`Persistence` trait.  The bot's `modules: HashMap<CompactString, _>` is an
association list in iteration order; names are their UTF-8 byte lists. -/

structure ModuleImpl (α : Type) where
  ser : α → Except String (List Nat)
  deser : α → List Nat → Except String α

structure BotState (α : Type) where
  lastUpdateId : Int
  modules : List (List Nat × α)

/-- The loop of `Bot::serialize`:
`modules.insert(name.to_string(), module.serialize()?)` — the first module
serialization error short-circuits. -/
def serializeModules (impl : ModuleImpl α) :
    List (List Nat × α) → Except String (List (List Nat × List Nat))
  | [] => Except.ok []
  | (n, st) :: rest =>
    match impl.ser st with
    | Except.error e => Except.error e
    | Except.ok bs =>
      match serializeModules impl rest with
      | Except.error e => Except.error e
      | Except.ok tail => Except.ok ((n, bs) :: tail)

/-- Model of `Bot::serialize` (src/bot/src/bot/mod.rs, lines 281-293). -/
def serializeBot (impl : ModuleImpl α) (b : BotState α) :
    Except String (List Nat) :=
  match serializeModules impl b.modules with
  | Except.error e => Except.error e
  | Except.ok pairs =>
      Except.ok (encodePersistenceData ⟨pairs, b.lastUpdateId⟩)

/-- Model of `self.modules.get_mut(input_name.as_str())` followed by
`module.deserialize(input_data)?` on a hit: the first module whose name
matches is updated; on a deserialization error the module map is left as it
was and the error is reported; a miss reports `found = false` (the caller
logs the `warn!`). -/
def updateModuleMut (impl : ModuleImpl α) (name data : List Nat) :
    List (List Nat × α) → List (List Nat × α) × Except String Bool
  | [] => ([], Except.ok false)
  | (n, st) :: rest =>
    if n = name then
      match impl.deser st data with
      | Except.ok st' => ((n, st') :: rest, Except.ok true)
      | Except.error e => ((n, st) :: rest, Except.error e)
    else
      let r := updateModuleMut impl name data rest
      ((n, st) :: r.1, r.2)

/-- The `for (input_name, input_data) in data.modules` loop of
`Bot::deserialize`: modules are restored one by one; a failing
`module.deserialize(input_data)?` aborts the loop, keeping the mutations
already made; the third component counts the `warn!` logs for entries whose
module is not registered. -/
def restoreModulesMut (impl : ModuleImpl α) :
    List (List Nat × α) → List (List Nat × List Nat) →
      List (List Nat × α) × Except String Unit × Nat
  | mods, [] => (mods, Except.ok (), 0)
  | mods, (name, data) :: rest =>
    match (updateModuleMut impl name data mods).2 with
    | Except.ok found =>
        let r := restoreModulesMut impl
          (updateModuleMut impl name data mods).1 rest
        (r.1, r.2.1, r.2.2 + (if found then 0 else 1))
    | Except.error e =>
        ((updateModuleMut impl name data mods).1, Except.error e, 0)

/-- Model of `Bot::deserialize` (src/bot/src/bot/mod.rs, lines 295-313), in
state-passing style because the source method takes `&mut self`: the result
is the bot state after the call, the returned `eyre::Result<()>`, and the
number of `warn!` logs.  A decode failure of the input returns the error
with the state untouched; otherwise `self.last_update_id` is assigned
before any module is restored. -/
def deserializeBot (impl : ModuleImpl α) (b : BotState α)
    (input : List Nat) : BotState α × Except String Unit × Nat :=
  match decodePersistenceData input with
  | none => (b, Except.error "decode error", 0)
  | some (d, _) =>
      let r := restoreModulesMut impl b.modules d.modules
      (⟨d.lastUpdateId, r.1⟩, r.2.1, r.2.2)

/-- The `HashMap` lookup on the association-list model (first match). -/
def lookupMod : List (List Nat × α) → List Nat → Option α
  | [], _ => none
  | (n, st) :: rest, name => if n = name then some st else lookupMod rest name

/-- The C6 precondition "the modules' own serialize/deserialize pairs
round-trip", pointwise over the fresh instance's modules (first list) and
the original's (second list): same names in the same iteration order, and
serializing an original state then deserializing the blob into the fresh
state reproduces the original state (the blob also fits a `Vec<u8>`). -/
def RoundTrips (impl : ModuleImpl α) :
    List (List Nat × α) → List (List Nat × α) → Prop
  | [], [] => True
  | (n₀, st₀) :: rest₀, (n₁, st₁) :: rest₁ =>
      n₀ = n₁ ∧
        (∃ bs, impl.ser st₁ = Except.ok bs ∧ bs.length < 2 ^ 64 ∧
          impl.deser st₀ bs = Except.ok st₁) ∧
        RoundTrips impl rest₀ rest₁
  | _, _ => False

theorem updateModuleMut_cons_ne (impl : ModuleImpl α)
    (name data n : List Nat) (st : α) (mods : List (List Nat × α))
    (hne : n ≠ name) :
    updateModuleMut impl name data ((n, st) :: mods) =
      ((n, st) :: (updateModuleMut impl name data mods).1,
        (updateModuleMut impl name data mods).2) := by
  simp only [updateModuleMut, if_neg hne]

theorem updateModuleMut_cons_eq_ok (impl : ModuleImpl α)
    (name data : List Nat) (st st' : α) (mods : List (List Nat × α))
    (hd : impl.deser st data = Except.ok st') :
    updateModuleMut impl name data ((name, st) :: mods) =
      ((name, st') :: mods, Except.ok true) := by
  simp [updateModuleMut, hd]

theorem restoreModulesMut_cons_notmem (impl : ModuleImpl α) (n : List Nat)
    (st : α) (mods : List (List Nat × α))
    (entries : List (List Nat × List Nat))
    (h : ∀ e ∈ entries, e.1 ≠ n) :
    restoreModulesMut impl ((n, st) :: mods) entries =
      ((n, st) :: (restoreModulesMut impl mods entries).1,
        (restoreModulesMut impl mods entries).2) := by
  induction entries generalizing mods with
  | nil => rfl
  | cons e rest ih =>
      obtain ⟨name, data⟩ := e
      have hne : n ≠ name :=
        fun hEq => h (name, data) (List.mem_cons_self _ _) hEq.symm
      have hni : ∀ q ∈ rest, q.1 ≠ n :=
        fun q hq => h q (List.mem_cons_of_mem _ hq)
      simp only [restoreModulesMut,
        updateModuleMut_cons_ne impl name data n st mods hne]
      cases hu : (updateModuleMut impl name data mods).2 with
      | ok found => simp [hu, ih _ hni]
      | error e => simp [hu]

theorem serialize_restore (impl : ModuleImpl α)
    (fresh orig : List (List Nat × α))
    (hnd : (orig.map Prod.fst).Nodup)
    (hrt : RoundTrips impl fresh orig) :
    ∃ pairs, serializeModules impl orig = Except.ok pairs ∧
      pairs.map Prod.fst = orig.map Prod.fst ∧
      (∀ p ∈ pairs, p.2.length < 2 ^ 64) ∧
      restoreModulesMut impl fresh pairs = (orig, Except.ok (), 0) := by
  induction fresh generalizing orig with
  | nil =>
      cases orig with
      | nil => exact ⟨[], rfl, rfl, by simp, rfl⟩
      | cons o os => simp [RoundTrips] at hrt
  | cons f rest₀ ih =>
      obtain ⟨n₀, st₀⟩ := f
      cases orig with
      | nil => simp [RoundTrips] at hrt
      | cons o rest₁ =>
          obtain ⟨n₁, st₁⟩ := o
          simp only [RoundTrips] at hrt
          obtain ⟨hname, ⟨bs, hser, hbs, hdeser⟩, hrest⟩ := hrt
          subst hname
          simp only [List.map_cons, List.nodup_cons] at hnd
          obtain ⟨hnotin, hndtail⟩ := hnd
          obtain ⟨tail, hsertail, hfst, hlen, hrestore⟩ :=
            ih rest₁ hndtail hrest
          refine ⟨(n₀, bs) :: tail, ?_, ?_, ?_, ?_⟩
          · simp only [serializeModules, hser, hsertail]
          · simp [hfst]
          · intro p hp
            rcases List.mem_cons.mp hp with hp | hp
            · rw [hp]; exact hbs
            · exact hlen p hp
          · have hne : ∀ e ∈ tail, e.1 ≠ n₀ := by
              intro e he hEq
              apply hnotin
              rw [← hfst, ← hEq]
              exact List.mem_map_of_mem Prod.fst he
            have hcons := updateModuleMut_cons_eq_ok impl n₀ bs st₀ st₁
              rest₀ hdeser
            simp [restoreModulesMut, hcons,
              restoreModulesMut_cons_notmem impl n₀ st₁ rest₀ tail hne,
              hrestore]

/-- C6: for every bot state whose modules' serialize/deserialize pairs
round-trip, `Bot::serialize` followed by `Bot::deserialize` on a fresh bot
registered with the same module set (same unique names, default states)
succeeds and reproduces the high-water mark and every module's state. -/
theorem bot_serialize_deserialize_roundtrip (impl : ModuleImpl α)
    (b bfresh : BotState α)
    (hnd : (b.modules.map Prod.fst).Nodup)
    (hnames : ∀ p ∈ b.modules, p.1.length < 2 ^ 64)
    (hcount : b.modules.length < 2 ^ 64)
    (hm1 : -(2 ^ 63) ≤ b.lastUpdateId) (hm2 : b.lastUpdateId < 2 ^ 63)
    (hrt : RoundTrips impl bfresh.modules b.modules) :
    ∃ data, serializeBot impl b = Except.ok data ∧
      deserializeBot impl bfresh data =
        (⟨b.lastUpdateId, b.modules⟩, Except.ok (), 0) := by
  obtain ⟨pairs, hser, hfst, hlen, hrestore⟩ :=
    serialize_restore impl bfresh.modules b.modules hnd hrt
  refine ⟨encodePersistenceData ⟨pairs, b.lastUpdateId⟩, ?_, ?_⟩
  · simp [serializeBot, hser]
  · have hplen : pairs.length = b.modules.length := by
      have := congrArg List.length hfst
      simpa using this
    have hdec : decodePersistenceData
        (encodePersistenceData ⟨pairs, b.lastUpdateId⟩) =
          some (⟨pairs, b.lastUpdateId⟩, []) := by
      apply decode_encode_persistenceData
      · simpa [hplen] using hcount
      · intro p hp
        refine ⟨?_, hlen p hp⟩
        have hmem : p.1 ∈ pairs.map Prod.fst := List.mem_map_of_mem _ hp
        rw [hfst] at hmem
        obtain ⟨q, hq, hq1⟩ := List.mem_map.mp hmem
        rw [← hq1]
        exact hnames q hq
      · exact hm1
      · exact hm2
    simp [deserializeBot, hdec, hrestore]

/-- A module implementation whose state is its own byte blob:
serialization is the identity, deserialization replaces the state. -/
def byteStoreImpl : ModuleImpl (List Nat) :=
  ⟨fun st => Except.ok st, fun _ bs => Except.ok bs⟩

/-- C6 witness: one module named `"a"` (UTF-8 `[97]`) with state
`[1, 2, 3]` and mark `42`, restored onto a fresh bot with empty state. -/
theorem bot_serialize_deserialize_roundtrip_witness :
    ∃ data,
      serializeBot byteStoreImpl ⟨42, [([97], [1, 2, 3])]⟩ =
        Except.ok data ∧
      deserializeBot byteStoreImpl ⟨0, [([97], [])]⟩ data =
        (⟨42, [([97], [1, 2, 3])]⟩, Except.ok (), 0) :=
  bot_serialize_deserialize_roundtrip byteStoreImpl
    ⟨42, [([97], [1, 2, 3])]⟩ ⟨0, [([97], [])]⟩
    (by decide) (by decide) (by decide) (by decide) (by decide)
    (by exact ⟨rfl, ⟨[1, 2, 3], rfl, by decide, rfl⟩, trivial⟩)

theorem updateModuleMut_not_found (impl : ModuleImpl α)
    (name data : List Nat) (mods : List (List Nat × α))
    (h : lookupMod mods name = none) :
    updateModuleMut impl name data mods = (mods, Except.ok false) := by
  induction mods with
  | nil => rfl
  | cons p rest ih =>
      obtain ⟨n, st⟩ := p
      by_cases hn : n = name
      · simp [lookupMod, hn] at h
      · simp only [lookupMod, if_neg hn] at h
        simp [updateModuleMut_cons_ne impl name data n st rest hn, ih h]

theorem updateModuleMut_fst (impl : ModuleImpl α) (name data : List Nat)
    (mods : List (List Nat × α)) :
    ((updateModuleMut impl name data mods).1).map Prod.fst =
      mods.map Prod.fst := by
  induction mods with
  | nil => rfl
  | cons p rest ih =>
      obtain ⟨n, st⟩ := p
      by_cases hn : n = name
      · subst hn
        cases hd : impl.deser st data <;> simp [updateModuleMut, hd]
      · simp [updateModuleMut_cons_ne impl name data n st rest hn, ih]

theorem updateModuleMut_lookup_ne (impl : ModuleImpl α)
    (name data : List Nat) (mods : List (List Nat × α)) (n' : List Nat)
    (h : n' ≠ name) :
    lookupMod (updateModuleMut impl name data mods).1 n' =
      lookupMod mods n' := by
  induction mods with
  | nil => rfl
  | cons p rest ih =>
      obtain ⟨n, st⟩ := p
      by_cases hn : n = name
      · subst hn
        have hnn : ¬ n = n' := fun hh => h (hh.symm)
        cases hd : impl.deser st data <;>
          simp [updateModuleMut, hd, lookupMod, hnn]
      · simp [updateModuleMut_cons_ne impl name data n st rest hn,
          lookupMod, ih]

theorem updateModuleMut_found_ok (impl : ModuleImpl α)
    (name data : List Nat) (mods : List (List Nat × α)) (st : α) (st' : α)
    (hl : lookupMod mods name = some st)
    (hd : impl.deser st data = Except.ok st') :
    (updateModuleMut impl name data mods).2 = Except.ok true ∧
      lookupMod (updateModuleMut impl name data mods).1 name =
        some st' := by
  induction mods with
  | nil => simp [lookupMod] at hl
  | cons p rest ih =>
      obtain ⟨n, st₀⟩ := p
      by_cases hn : n = name
      · subst hn
        simp [lookupMod] at hl
        subst hl
        simp [updateModuleMut_cons_eq_ok impl n data st₀ st' rest hd,
          lookupMod]
      · simp only [lookupMod, if_neg hn] at hl
        obtain ⟨ih1, ih2⟩ := ih hl
        refine ⟨?_, ?_⟩
        · simp [updateModuleMut_cons_ne impl name data n st₀ rest hn, ih1]
        · simp [updateModuleMut_cons_ne impl name data n st₀ rest hn,
            lookupMod, hn, ih2]

theorem updateModuleMut_found_error (impl : ModuleImpl α)
    (name data : List Nat) (mods : List (List Nat × α)) (st : α)
    (e : String) (hl : lookupMod mods name = some st)
    (hd : impl.deser st data = Except.error e) :
    updateModuleMut impl name data mods = (mods, Except.error e) := by
  induction mods with
  | nil => simp [lookupMod] at hl
  | cons p rest ih =>
      obtain ⟨n, st₀⟩ := p
      by_cases hn : n = name
      · subst hn
        simp [lookupMod] at hl
        subst hl
        simp [updateModuleMut, hd]
      · simp only [lookupMod, if_neg hn] at hl
        simp [updateModuleMut_cons_ne impl name data n st₀ rest hn, ih hl]

theorem restoreModulesMut_lookup_ne (impl : ModuleImpl α)
    (mods : List (List Nat × α)) (entries : List (List Nat × List Nat))
    (n' : List Nat) (h : ∀ e ∈ entries, e.1 ≠ n') :
    lookupMod (restoreModulesMut impl mods entries).1 n' =
      lookupMod mods n' := by
  induction entries generalizing mods with
  | nil => rfl
  | cons e rest ih =>
      obtain ⟨name, data⟩ := e
      have hne : n' ≠ name :=
        fun hh => h (name, data) (List.mem_cons_self _ _) hh.symm
      have hrest : ∀ q ∈ rest, q.1 ≠ n' :=
        fun q hq => h q (List.mem_cons_of_mem _ hq)
      simp only [restoreModulesMut]
      cases hu : (updateModuleMut impl name data mods).2 with
      | ok found =>
          simp only []
          rw [ih _ hrest, updateModuleMut_lookup_ne impl name data mods n'
            hne]
      | error e =>
          simp only []
          exact updateModuleMut_lookup_ne impl name data mods n' hne

theorem restoreModulesMut_fst (impl : ModuleImpl α)
    (mods : List (List Nat × α)) (entries : List (List Nat × List Nat)) :
    ((restoreModulesMut impl mods entries).1).map Prod.fst =
      mods.map Prod.fst := by
  induction entries generalizing mods with
  | nil => rfl
  | cons e rest ih =>
      obtain ⟨name, data⟩ := e
      simp only [restoreModulesMut]
      cases hu : (updateModuleMut impl name data mods).2 with
      | ok found =>
          simp only []
          rw [ih, updateModuleMut_fst]
      | error e =>
          simp only []
          exact updateModuleMut_fst impl name data mods

/-- The number of snapshot entries whose module is not registered: each
produces exactly one warn-level log naming the entry in
`Bot::deserialize`. -/
def missingCount (mods : List (List Nat × α)) :
    List (List Nat × List Nat) → Nat
  | [] => 0
  | e :: rest =>
      (if (lookupMod mods e.1).isNone then 1 else 0) + missingCount mods rest

theorem missingCount_congr (mods mods' : List (List Nat × α))
    (entries : List (List Nat × List Nat))
    (h : ∀ e ∈ entries, lookupMod mods' e.1 = lookupMod mods e.1) :
    missingCount mods' entries = missingCount mods entries := by
  induction entries with
  | nil => rfl
  | cons e rest ih =>
      simp only [missingCount, h e (List.mem_cons_self _ _),
        ih fun q hq => h q (List.mem_cons_of_mem _ hq)]

theorem missingCount_pos (mods : List (List Nat × α))
    (entries : List (List Nat × List Nat))
    (h : ∃ e ∈ entries, lookupMod mods e.1 = none) :
    1 ≤ missingCount mods entries := by
  induction entries with
  | nil => simp at h
  | cons q rest ih =>
      obtain ⟨e, he, hl⟩ := h
      rcases List.mem_cons.mp he with rfl | he
      · simp [missingCount, hl]
      · have := ih ⟨e, he, hl⟩
        simp only [missingCount]
        omega

/-- The per-entry success precondition for `Bot::deserialize`: every
snapshot entry whose name is registered deserializes successfully into the
module's current state. -/
def EntriesOk (impl : ModuleImpl α) (mods : List (List Nat × α))
    (entries : List (List Nat × List Nat)) : Prop :=
  ∀ e ∈ entries, ∀ st, lookupMod mods e.1 = some st →
    ∃ st', impl.deser st e.2 = Except.ok st'

theorem restore_ok (impl : ModuleImpl α) (mods : List (List Nat × α))
    (entries : List (List Nat × List Nat))
    (hnd : (entries.map Prod.fst).Nodup)
    (hok : EntriesOk impl mods entries) :
    (restoreModulesMut impl mods entries).2.1 = Except.ok () ∧
      (restoreModulesMut impl mods entries).2.2 =
        missingCount mods entries ∧
      (∀ e ∈ entries, ∀ st st', lookupMod mods e.1 = some st →
        impl.deser st e.2 = Except.ok st' →
        lookupMod (restoreModulesMut impl mods entries).1 e.1 =
          some st') := by
  induction entries generalizing mods with
  | nil => exact ⟨rfl, rfl, by simp⟩
  | cons q rest ih =>
      obtain ⟨name, data⟩ := q
      simp only [List.map_cons, List.nodup_cons] at hnd
      obtain ⟨hnotin, hndtail⟩ := hnd
      have hnerest : ∀ e ∈ rest, e.1 ≠ name := by
        intro e he hEq
        exact hnotin (hEq ▸ List.mem_map_of_mem Prod.fst he)
      cases hl : lookupMod mods name with
      | none =>
          have hupd := updateModuleMut_not_found impl name data mods hl
          have hoktail : EntriesOk impl mods rest :=
            fun e he st hst => hok e (List.mem_cons_of_mem _ he) st hst
          obtain ⟨ih1, ih2, ih3⟩ := ih mods hndtail hoktail
          refine ⟨?_, ?_, ?_⟩
          · simp [restoreModulesMut, hupd, ih1]
          · simp only [restoreModulesMut, hupd, missingCount, hl]
            simp [ih2]
            omega
          · intro e he st st' hst hds
            rcases List.mem_cons.mp he with hEq | he
            · rw [hEq] at hst
              rw [hl] at hst
              exact Option.noConfusion hst
            · simp only [restoreModulesMut, hupd]
              simpa using ih3 e he st st' hst hds
      | some st₀ =>
          obtain ⟨st₀', hds₀⟩ :=
            hok (name, data) (List.mem_cons_self _ _) st₀ hl
          obtain ⟨hu2, hulook⟩ :=
            updateModuleMut_found_ok impl name data mods st₀ st₀' hl hds₀
          have hlookpre : ∀ e ∈ rest,
              lookupMod (updateModuleMut impl name data mods).1 e.1 =
                lookupMod mods e.1 :=
            fun e he =>
              updateModuleMut_lookup_ne impl name data mods e.1
                (hnerest e he)
          have hoktail :
              EntriesOk impl (updateModuleMut impl name data mods).1
                rest := by
            intro e he st hst
            rw [hlookpre e he] at hst
            exact hok e (List.mem_cons_of_mem _ he) st hst
          obtain ⟨ih1, ih2, ih3⟩ := ih _ hndtail hoktail
          refine ⟨?_, ?_, ?_⟩
          · simp [restoreModulesMut, hu2, ih1]
          · have hcongr :
                missingCount (updateModuleMut impl name data mods).1 rest =
                  missingCount mods rest :=
              missingCount_congr mods _ rest hlookpre
            simp [restoreModulesMut, hu2, ih2, missingCount, hl, hcongr]
          · intro e he st st' hst hds
            rcases List.mem_cons.mp he with hEq | he
            · rw [hEq] at hst hds ⊢
              rw [hl] at hst
              injection hst with hst
              subst hst
              rw [hds₀] at hds
              injection hds with hds
              subst hds
              simp only [restoreModulesMut, hu2]
              rw [restoreModulesMut_lookup_ne impl _ rest name hnerest]
              exact hulook
            · simp only [restoreModulesMut, hu2]
              apply ih3 e he st st'
              · rw [hlookpre e he]
                exact hst
              · exact hds

theorem restore_fail (impl : ModuleImpl α) (mods : List (List Nat × α))
    (pre : List (List Nat × List Nat)) (nf df : List Nat)
    (post : List (List Nat × List Nat)) (stf : α) (e : String)
    (hndpre : (pre.map Prod.fst).Nodup)
    (hnf : ∀ q ∈ pre, q.1 ≠ nf)
    (hok : EntriesOk impl mods pre)
    (hf : lookupMod mods nf = some stf)
    (hdf : impl.deser stf df = Except.error e) :
    (restoreModulesMut impl mods (pre ++ (nf, df) :: post)).2.1 =
      Except.error e ∧
      (∀ q ∈ pre, ∀ st st', lookupMod mods q.1 = some st →
        impl.deser st q.2 = Except.ok st' →
        lookupMod
          (restoreModulesMut impl mods (pre ++ (nf, df) :: post)).1 q.1 =
          some st') ∧
      (∀ n', (∀ q ∈ pre, q.1 ≠ n') → n' ≠ nf →
        lookupMod
          (restoreModulesMut impl mods (pre ++ (nf, df) :: post)).1 n' =
          lookupMod mods n') := by
  induction pre generalizing mods with
  | nil =>
      have hupd := updateModuleMut_found_error impl nf df mods stf e hf hdf
      refine ⟨?_, by simp, ?_⟩
      · simp [restoreModulesMut, hupd]
      · intro n' _ hne
        simp [restoreModulesMut, hupd]
  | cons q pre' ih =>
      obtain ⟨n₀, d₀⟩ := q
      simp only [List.map_cons, List.nodup_cons] at hndpre
      obtain ⟨hnotin, hndtail⟩ := hndpre
      have hn₀nf : n₀ ≠ nf := hnf (n₀, d₀) (List.mem_cons_self _ _)
      have hnftail : ∀ q ∈ pre', q.1 ≠ nf :=
        fun q hq => hnf q (List.mem_cons_of_mem _ hq)
      have hnepre : ∀ q ∈ pre', q.1 ≠ n₀ :=
        fun q hq hEq => hnotin (hEq ▸ List.mem_map_of_mem Prod.fst hq)
      simp only [List.cons_append]
      cases hl : lookupMod mods n₀ with
      | none =>
          have hupd := updateModuleMut_not_found impl n₀ d₀ mods hl
          have hoktail : EntriesOk impl mods pre' :=
            fun q hq st hst => hok q (List.mem_cons_of_mem _ hq) st hst
          obtain ⟨ih1, ih2, ih3⟩ := ih mods hndtail hnftail hoktail hf
          refine ⟨?_, ?_, ?_⟩
          · simp [restoreModulesMut, hupd, ih1]
          · intro q hq st st' hst hds
            rcases List.mem_cons.mp hq with hEq | hq
            · rw [hEq] at hst
              rw [hl] at hst
              exact Option.noConfusion hst
            · simp only [restoreModulesMut, hupd]
              simpa using ih2 q hq st st' hst hds
          · intro n' hq hne
            simp only [restoreModulesMut, hupd]
            simpa using
              ih3 n' (fun q hqq => hq q (List.mem_cons_of_mem _ hqq)) hne
      | some st₀ =>
          obtain ⟨st₀', hds₀⟩ :=
            hok (n₀, d₀) (List.mem_cons_self _ _) st₀ hl
          obtain ⟨hu2, hulook⟩ :=
            updateModuleMut_found_ok impl n₀ d₀ mods st₀ st₀' hl hds₀
          have hlookpre : ∀ q ∈ pre',
              lookupMod (updateModuleMut impl n₀ d₀ mods).1 q.1 =
                lookupMod mods q.1 :=
            fun q hq =>
              updateModuleMut_lookup_ne impl n₀ d₀ mods q.1 (hnepre q hq)
          have hoktail :
              EntriesOk impl (updateModuleMut impl n₀ d₀ mods).1 pre' := by
            intro q hq st hst
            rw [hlookpre q hq] at hst
            exact hok q (List.mem_cons_of_mem _ hq) st hst
          have hftail :
              lookupMod (updateModuleMut impl n₀ d₀ mods).1 nf =
                some stf := by
            rw [updateModuleMut_lookup_ne impl n₀ d₀ mods nf
              (Ne.symm hn₀nf)]
            exact hf
          obtain ⟨ih1, ih2, ih3⟩ := ih _ hndtail hnftail hoktail hftail
          refine ⟨?_, ?_, ?_⟩
          · simp [restoreModulesMut, hu2, ih1]
          · intro q hq st st' hst hds
            rcases List.mem_cons.mp hq with hEq | hq
            · rw [hEq] at hst hds ⊢
              rw [hl] at hst
              injection hst with hst
              subst hst
              rw [hds₀] at hds
              injection hds with hds
              subst hds
              simp only [restoreModulesMut, hu2]
              rw [ih3 n₀ hnepre hn₀nf]
              exact hulook
            · simp only [restoreModulesMut, hu2]
              apply ih2 q hq st st'
              · rw [hlookpre q hq]
                exact hst
              · exact hds
          · intro n' hq hne
            have hn₀n' : n' ≠ n₀ :=
              Ne.symm (hq (n₀, d₀) (List.mem_cons_self _ _))
            simp only [restoreModulesMut, hu2]
            rw [ih3 n' (fun q hqq => hq q (List.mem_cons_of_mem _ hqq))
              hne]
            exact updateModuleMut_lookup_ne impl n₀ d₀ mods n' hn₀n'

/-- C7: `Bot::deserialize` of a well-formed snapshot (an encoded
`PersistenceData` whose registered entries deserialize successfully)
containing an entry whose module name is not registered does not return an
error: the unknown entry only produces a warning (counted), the high-water
mark is set from the snapshot, the registered module set is unchanged, and
every snapshot entry whose module is registered has that module's state
restored. -/
theorem load_skips_unknown_module (impl : ModuleImpl α) (b : BotState α)
    (d : PersistenceData)
    (hnd : (d.modules.map Prod.fst).Nodup)
    (hok : EntriesOk impl b.modules d.modules)
    (hunk : ∃ e ∈ d.modules, lookupMod b.modules e.1 = none)
    (hn : d.modules.length < 2 ^ 64)
    (hp : ∀ p ∈ d.modules, p.1.length < 2 ^ 64 ∧ p.2.length < 2 ^ 64)
    (h1 : -(2 ^ 63) ≤ d.lastUpdateId) (h2 : d.lastUpdateId < 2 ^ 63) :
    (deserializeBot impl b (encodePersistenceData d)).2.1 =
      Except.ok () ∧
      (deserializeBot impl b (encodePersistenceData d)).1.lastUpdateId =
        d.lastUpdateId ∧
      (deserializeBot impl b (encodePersistenceData d)).2.2 =
        missingCount b.modules d.modules ∧
      1 ≤ (deserializeBot impl b (encodePersistenceData d)).2.2 ∧
      ((deserializeBot impl b
        (encodePersistenceData d)).1.modules).map Prod.fst =
        b.modules.map Prod.fst ∧
      (∀ e ∈ d.modules, ∀ st st', lookupMod b.modules e.1 = some st →
        impl.deser st e.2 = Except.ok st' →
        lookupMod (deserializeBot impl b
          (encodePersistenceData d)).1.modules e.1 = some st') := by
  have hdec := decode_encode_persistenceData d hn hp h1 h2
  obtain ⟨hr1, hr2, hr3⟩ := restore_ok impl b.modules d.modules hnd hok
  refine ⟨?_, ?_, ?_, ?_, ?_, ?_⟩
  · simp [deserializeBot, hdec, hr1]
  · simp [deserializeBot, hdec]
  · simp [deserializeBot, hdec, hr2]
  · simp only [deserializeBot, hdec]
    simpa [hr2] using missingCount_pos b.modules d.modules hunk
  · simp only [deserializeBot, hdec]
    simpa using restoreModulesMut_fst impl b.modules d.modules
  · intro e he st st' hst hds
    simp only [deserializeBot, hdec]
    simpa using hr3 e he st st' hst hds

/-- C7 witness: one registered module `"a"` (`[97]`), a snapshot with
entries for `"a"` and for the unregistered name `"b"` (`[98]`), mark `5`. -/
theorem load_skips_unknown_module_witness :
    (deserializeBot byteStoreImpl ⟨7, [([97], [1])]⟩
      (encodePersistenceData ⟨[([97], [2]), ([98], [3])], 5⟩)).2.1 =
        Except.ok () ∧
      (deserializeBot byteStoreImpl ⟨7, [([97], [1])]⟩
        (encodePersistenceData
          ⟨[([97], [2]), ([98], [3])], 5⟩)).1.lastUpdateId = 5 ∧
      (deserializeBot byteStoreImpl ⟨7, [([97], [1])]⟩
        (encodePersistenceData ⟨[([97], [2]), ([98], [3])], 5⟩)).2.2 =
        missingCount (α := List Nat) [([97], [1])]
          [([97], [2]), ([98], [3])] ∧
      1 ≤ (deserializeBot byteStoreImpl ⟨7, [([97], [1])]⟩
        (encodePersistenceData ⟨[([97], [2]), ([98], [3])], 5⟩)).2.2 ∧
      ((deserializeBot byteStoreImpl ⟨7, [([97], [1])]⟩
        (encodePersistenceData
          ⟨[([97], [2]), ([98], [3])], 5⟩)).1.modules).map Prod.fst =
        ([([97], [1])] : List (List Nat × List Nat)).map Prod.fst ∧
      (∀ e ∈ ([([97], [2]), ([98], [3])] : List (List Nat × List Nat)),
        ∀ st st', lookupMod [([97], [1])] e.1 = some st →
        byteStoreImpl.deser st e.2 = Except.ok st' →
        lookupMod (deserializeBot byteStoreImpl ⟨7, [([97], [1])]⟩
          (encodePersistenceData
            ⟨[([97], [2]), ([98], [3])], 5⟩)).1.modules e.1 =
          some st') :=
  load_skips_unknown_module byteStoreImpl ⟨7, [([97], [1])]⟩
    ⟨[([97], [2]), ([98], [3])], 5⟩
    (by decide)
    (by intro e he st hst; exact ⟨e.2, rfl⟩)
    ⟨([98], [3]), by decide, by decide⟩
    (by decide) (by decide) (by decide) (by decide)

/-- C10: `Bot::deserialize` is not atomic on error: on a snapshot whose
entries are `pre ++ (nf, df) :: post` where every `pre` entry succeeds and
the registered module `nf` fails to deserialize `df`, the call returns the
module's error, yet the high-water mark has already been assigned from the
snapshot and the modules restored by the `pre` entries keep their new
states. -/
theorem deserialize_not_atomic (impl : ModuleImpl α) (b : BotState α)
    (pre : List (List Nat × List Nat)) (nf df : List Nat)
    (post : List (List Nat × List Nat)) (stf : α) (e : String) (m : Int)
    (hndpre : (pre.map Prod.fst).Nodup)
    (hnf : ∀ q ∈ pre, q.1 ≠ nf)
    (hok : EntriesOk impl b.modules pre)
    (hf : lookupMod b.modules nf = some stf)
    (hdf : impl.deser stf df = Except.error e)
    (hn : (pre ++ (nf, df) :: post).length < 2 ^ 64)
    (hp : ∀ p ∈ pre ++ (nf, df) :: post,
      p.1.length < 2 ^ 64 ∧ p.2.length < 2 ^ 64)
    (h1 : -(2 ^ 63) ≤ m) (h2 : m < 2 ^ 63) :
    (deserializeBot impl b
      (encodePersistenceData ⟨pre ++ (nf, df) :: post, m⟩)).2.1 =
      Except.error e ∧
      (deserializeBot impl b
        (encodePersistenceData
          ⟨pre ++ (nf, df) :: post, m⟩)).1.lastUpdateId = m ∧
      (∀ q ∈ pre, ∀ st st', lookupMod b.modules q.1 = some st →
        impl.deser st q.2 = Except.ok st' →
        lookupMod (deserializeBot impl b
          (encodePersistenceData
            ⟨pre ++ (nf, df) :: post, m⟩)).1.modules q.1 = some st') := by
  have hdec := decode_encode_persistenceData
    ⟨pre ++ (nf, df) :: post, m⟩ hn hp h1 h2
  obtain ⟨hr1, hr2, _⟩ :=
    restore_fail impl b.modules pre nf df post stf e hndpre hnf hok hf hdf
  refine ⟨?_, ?_, ?_⟩
  · simp [deserializeBot, hdec, hr1]
  · simp [deserializeBot, hdec]
  · intro q hq st st' hst hds
    simp only [deserializeBot, hdec]
    simpa using hr2 q hq st st' hst hds

/-- A module whose deserialization rejects the empty blob: used to witness
the partial-state behaviour of `Bot::deserialize` on error. -/
def failOnEmptyImpl : ModuleImpl (List Nat) :=
  ⟨fun st => Except.ok st,
    fun _ bs => if bs.isEmpty then Except.error "empty blob"
      else Except.ok bs⟩

/-- C10 witness: modules `"a"` (`[97]`) and `"b"` (`[98]`); the snapshot
restores `"a"` to `[5]` and then fails on `"b"` with an empty blob; the
error comes back while the mark is `9` and `"a"` keeps `[5]`. -/
theorem deserialize_not_atomic_witness :
    (deserializeBot failOnEmptyImpl ⟨0, [([97], [1]), ([98], [2])]⟩
      (encodePersistenceData
        ⟨[([97], [5])] ++ ([98], []) :: [], 9⟩)).2.1 =
      Except.error "empty blob" ∧
      (deserializeBot failOnEmptyImpl ⟨0, [([97], [1]), ([98], [2])]⟩
        (encodePersistenceData
          ⟨[([97], [5])] ++ ([98], []) :: [], 9⟩)).1.lastUpdateId = 9 ∧
      (∀ q ∈ ([([97], [5])] : List (List Nat × List Nat)), ∀ st st',
        lookupMod [([97], [1]), ([98], [2])] q.1 = some st →
        failOnEmptyImpl.deser st q.2 = Except.ok st' →
        lookupMod (deserializeBot failOnEmptyImpl
          ⟨0, [([97], [1]), ([98], [2])]⟩
          (encodePersistenceData
            ⟨[([97], [5])] ++ ([98], []) :: [], 9⟩)).1.modules q.1 =
          some st') :=
  deserialize_not_atomic failOnEmptyImpl ⟨0, [([97], [1]), ([98], [2])]⟩
    [([97], [5])] [98] [] [] [2] "empty blob" 9
    (by decide) (by decide)
    (by intro q hq st hst; fin_cases hq; exact ⟨[5], rfl⟩)
    (by decide) rfl (by decide) (by decide) (by decide) (by decide)

/-! ## `Bot::save_data` and the snapshot file

Source (src/bot/src/bot/mod.rs, lines 162-171):

```
fn save_data(&self) -> eyre::Result<()> {
    let data = self.serialize()?;
    let path = self.work_dir.join(Path::new(&self.data_file_name));
    let mut file = std::fs::File::options()
        .write(true)
        .create(true)
        .open(path)?;
    file.write_all(data.as_slice())?;
    Ok(())
}
```

The open options are `.write(true).create(true)` with **no**
`.truncate(true)`, so an existing file is opened as-is and `write_all`
overwrites from offset 0: any bytes of a longer previous file beyond the
written range survive. -/

def writeFileNoTruncate (oldContent newData : List Nat) : List Nat :=
  newData ++ oldContent.drop newData.length

/-- Model of `Bot::save_data`, as a function from the previous file content to the
new file content. -/
def saveDataFile (impl : ModuleImpl α) (b : BotState α)
    (oldContent : List Nat) : Except String (List Nat) :=
  match serializeBot impl b with
  | Except.error e => Except.error e
  | Except.ok data => Except.ok (writeFileNoTruncate oldContent data)

/-- C8: after a successful `save_data()` the file does NOT necessarily
contain exactly `Bot::serialize`'s bytes: with no modules and mark `1`
the serialized snapshot is `[0, 2]`, but over a previous 4-byte snapshot
`[0, 251, 144, 1]` (no modules, mark `200`) the file ends up as
`[0, 2, 144, 1]` — two stale trailing bytes remain because the open
options lack `.truncate(true)`. -/
theorem save_data_leaves_stale_tail :
    serializeBot byteStoreImpl ⟨1, []⟩ = Except.ok [0, 2] ∧
      saveDataFile byteStoreImpl ⟨1, []⟩ [0, 251, 144, 1] =
        Except.ok [0, 2, 144, 1] ∧
      ([0, 2, 144, 1] : List Nat) ≠ [0, 2] := by
  refine ⟨rfl, rfl, by decide⟩

end Jab3
